import Mathlib

/-!
Verification of the request/response protocol engine of
`typescript-mcp-example`: the frame demultiplexer and correlation client of
`tests/helpers/mcp_client.ts`, and the tool dispatcher of `src/server.ts`
(with the zod-based variant of the v2 server).

Strings are modelled as `List Char`; JavaScript `Map` as an association
list; the asynchronous event loop as explicit sequential steps.
-/

/-! ## Frame demultiplexer (`MCPTestClient.processOutputBuffer`) -/

/-- The opening brace character, `{`. -/
def openBrace : Char := '\x7b'

/-- The closing brace character, `\x7d`. -/
def closeBrace : Char := '\x7d'

/-- JavaScript whitespace for `String.prototype.trim` (the characters that
matter on this channel). -/
def isWS (c : Char) : Bool :=
  c = ' ' || c = '\t' || c = '\n' || c = '\r' || c = '\x0b' || c = '\x0c'

/-- JS `line.trim()`: strip whitespace from both ends. -/
def jsTrim (l : List Char) : List Char :=
  ((l.dropWhile isWS).reverse.dropWhile isWS).reverse

/-- Attach a character to the front of the first complete line of a split
result; with no complete line it lands on the trailing segment. -/
def prependChar (c : Char) : List (List Char) × List Char → List (List Char) × List Char
  | ([], r) => ([], c :: r)
  | (l :: ls, r) => ((c :: l) :: ls, r)

/-- Model of `buffer.split("\n")`, presented as (complete lines, trailing segment):
the JS array's last element is the trailing segment kept in
`this.outputBuffer`, all earlier elements are complete lines. -/
def splitLines : List Char → List (List Char) × List Char
  | [] => ([], [])
  | c :: rest =>
      if c = '\n' then ([] :: (splitLines rest).1, (splitLines rest).2)
      else prependChar c (splitLines rest)

/-- The syntactic filter of `processOutputBuffer`:
`line.startsWith("{") && line.endsWith("}")` on the trimmed line.
Lines passing it are handed to `JSON.parse`. -/
def lineAccept (l : List Char) : Bool :=
  l.head? = some openBrace && l.getLast? = some closeBrace

/-- The lines a batch of complete lines hands to the decode stage, trimmed,
in order. -/
def emitLines (ls : List (List Char)) : List (List Char) :=
  ls.filterMap (fun l => if lineAccept (jsTrim l) then some (jsTrim l) else none)

/-- One call of `processOutputBuffer` on the accumulated buffer: emit the
accepted trimmed complete lines, keep the trailing segment. -/
def processOutputBuffer (buffer : List Char) : List (List Char) × List Char :=
  (emitLines (splitLines buffer).1, (splitLines buffer).2)

/-- One `data` event: append the chunk to the buffer, run
`processOutputBuffer`, accumulate the emissions. -/
def feedChunk (st : List (List Char) × List Char) (chunk : List Char) :
    List (List Char) × List Char :=
  let p := processOutputBuffer (st.2 ++ chunk)
  (st.1 ++ p.1, p.2)

/-- Feed a whole sequence of chunks from an empty buffer. -/
def feedAll (chunks : List (List Char)) : List (List Char) × List Char :=
  chunks.foldl feedChunk ([], [])

/-- A well-formed frame: a single line (no terminator inside), already
trimmed, passing the brace filter — exactly the shape a serialized JSON
envelope takes on this channel. -/
def wellFormedFrame (f : List Char) : Bool :=
  decide ('\n' ∉ f) && decide (jsTrim f = f) && lineAccept f

/-- The byte stream produced by writing each frame newline-terminated. -/
def encodeFrames (frames : List (List Char)) : List Char :=
  (frames.map (fun f => f ++ ['\n'])).flatten

/-! ### Demultiplexer lemmas -/

theorem splitLines_no_newline (s : List Char) (h : '\n' ∉ s) :
    splitLines s = ([], s) := by
  induction s with
  | nil => rfl
  | cons c rest ih =>
      simp only [List.mem_cons, not_or] at h
      rw [splitLines]
      have hc : ¬ c = '\n' := fun hcc => h.1 hcc.symm
      simp only [hc, if_false]
      rw [ih h.2]
      rfl

theorem splitLines_rem_no_newline (s : List Char) :
    '\n' ∉ (splitLines s).2 := by
  induction s with
  | nil => simp [splitLines]
  | cons c rest ih =>
      rw [splitLines]
      by_cases hc : c = '\n'
      · simpa [hc] using ih
      · simp only [hc, if_false]
        rcases hp : splitLines rest with ⟨ls, r⟩
        rw [hp] at ih
        cases ls with
        | nil =>
            simp only [prependChar, List.mem_cons, not_or]
            exact ⟨fun hcc => hc hcc.symm, ih⟩
        | cons l ls' => simpa [prependChar] using ih

/-- Merging a leading segment into the first complete line of a split. -/
def consHead (r : List Char) : List (List Char) → List (List Char)
  | [] => []
  | l :: ls => (r ++ l) :: ls

theorem splitLines_append (s t : List Char) :
    splitLines (s ++ t) =
      ((splitLines s).1 ++ consHead (splitLines s).2 (splitLines t).1,
       match (splitLines t).1 with
       | [] => (splitLines s).2 ++ (splitLines t).2
       | _ :: _ => (splitLines t).2) := by
  induction s with
  | nil =>
      simp only [List.nil_append, splitLines]
      rcases ht : splitLines t with ⟨lt, rt⟩
      cases lt with
      | nil => simp [consHead]
      | cons l ls => simp [consHead]
  | cons c s' ih =>
      simp only [List.cons_append]
      rw [splitLines, ih, splitLines]
      by_cases hc : c = '\n'
      · simp [hc]
      · simp only [hc, if_false]
        rcases hs : splitLines s' with ⟨lsp, rsp⟩
        rcases ht : splitLines t with ⟨lt, rt⟩
        cases lsp with
        | nil =>
            cases lt with
            | nil => simp [consHead, prependChar]
            | cons l ls => simp [consHead, prependChar]
        | cons l ls => simp [consHead, prependChar]

theorem splitLines_append_rem (s t : List Char) :
    (splitLines (s ++ t)).1 =
      (splitLines s).1 ++ (splitLines ((splitLines s).2 ++ t)).1 ∧
    (splitLines (s ++ t)).2 = (splitLines ((splitLines s).2 ++ t)).2 := by
  rw [splitLines_append s t, splitLines_append ((splitLines s).2) t,
      splitLines_no_newline _ (splitLines_rem_no_newline s)]
  rcases ht : splitLines t with ⟨lt, rt⟩
  cases lt with
  | nil => simp [consHead]
  | cons l ls => simp [consHead]

theorem emitLines_append (a b : List (List Char)) :
    emitLines (a ++ b) = emitLines a ++ emitLines b := by
  simp [emitLines]

theorem foldl_feedChunk (chunks : List (List Char)) (acc : List (List Char))
    (buf : List Char) (hbuf : '\n' ∉ buf) :
    chunks.foldl feedChunk (acc, buf) =
      (acc ++ emitLines (splitLines (buf ++ chunks.flatten)).1,
       (splitLines (buf ++ chunks.flatten)).2) := by
  induction chunks generalizing acc buf with
  | nil =>
      simp [splitLines_no_newline buf hbuf, emitLines]
  | cons c cs ih =>
      rw [List.foldl_cons]
      have hstep : feedChunk (acc, buf) c =
          (acc ++ emitLines (splitLines (buf ++ c)).1, (splitLines (buf ++ c)).2) := rfl
      rw [hstep, ih _ _ (splitLines_rem_no_newline (buf ++ c))]
      have hflat : buf ++ (c :: cs).flatten = (buf ++ c) ++ cs.flatten := by
        simp [List.flatten_cons]
      rw [hflat]
      obtain ⟨h1, h2⟩ := splitLines_append_rem (buf ++ c) cs.flatten
      rw [h1, h2, emitLines_append, List.append_assoc]

theorem splitLines_encode (frames : List (List Char)) (rest : List Char)
    (hf : ∀ f ∈ frames, '\n' ∉ f) (hr : '\n' ∉ rest) :
    splitLines (encodeFrames frames ++ rest) = (frames, rest) := by
  induction frames with
  | nil =>
      simp only [encodeFrames, List.map_nil, List.flatten_nil, List.nil_append]
      exact splitLines_no_newline rest hr
  | cons f fs ih =>
      have henc : encodeFrames (f :: fs) ++ rest =
          f ++ ('\n' :: (encodeFrames fs ++ rest)) := by
        simp [encodeFrames, List.flatten_cons, List.append_assoc]
      rw [henc, splitLines_append f ('\n' :: (encodeFrames fs ++ rest))]
      rw [splitLines_no_newline f (hf f (by simp))]
      have hu : splitLines ('\n' :: (encodeFrames fs ++ rest)) =
          ([] :: fs, rest) := by
        rw [splitLines]
        simp [ih (fun g hg => hf g (by simp [hg])) ]
      rw [hu]
      simp [consHead]

theorem emitLines_of_wellFormed (frames : List (List Char))
    (h : ∀ f ∈ frames, wellFormedFrame f = true) :
    emitLines frames = frames := by
  induction frames with
  | nil => rfl
  | cons f fs ih =>
      have hf := h f (by simp)
      simp only [wellFormedFrame, Bool.and_eq_true, decide_eq_true_eq] at hf
      rw [emitLines, List.filterMap_cons]
      rw [hf.1.2]
      simp only [hf.2, if_true]
      have := ih (fun g hg => h g (by simp [hg]))
      rw [emitLines] at this
      rw [this]

/-- C1: for every fixed sequence of well-formed newline-terminated frames and
every way of splitting their concatenated bytes into chunks (mid-frame splits,
several frames per chunk, empty chunks), feeding the chunks in order to
`processOutputBuffer` over the accumulated `outputBuffer` emits exactly the
original frames in the original order, and retains the trailing unterminated
segment in the buffer across calls. Frames are modelled up to the
`JSON.parse` boundary: an emission is a trimmed complete line passing the
brace filter, exactly the lines the code hands to the decode stage. -/
theorem demux_rechunk_faithful (frames chunks : List (List Char)) (rest : List Char)
    (hwf : ∀ f ∈ frames, wellFormedFrame f = true)
    (hrest : '\n' ∉ rest)
    (hchunks : chunks.flatten = encodeFrames frames ++ rest) :
    feedAll chunks = (frames, rest) := by
  unfold feedAll
  rw [foldl_feedChunk chunks [] [] (by simp)]
  simp only [List.nil_append, hchunks]
  have hnf : ∀ f ∈ frames, '\n' ∉ f := by
    intro f hf
    have := hwf f hf
    simp only [wellFormedFrame, Bool.and_eq_true, decide_eq_true_eq] at this
    exact this.1.1
  rw [splitLines_encode frames rest hnf hrest]
  simp [emitLines_of_wellFormed frames hwf]

/-- Witness for C1: two concrete frames re-chunked adversarially (mid-frame
split, two frames in one chunk, trailing partial frame) are emitted intact
with the partial frame retained in the buffer. -/
theorem demux_rechunk_faithful_witness :
    feedAll [[openBrace], ['a'], [], [closeBrace, '\n', openBrace, closeBrace, '\n', openBrace]] =
      ([[openBrace, 'a', closeBrace], [openBrace, closeBrace]], [openBrace]) :=
  demux_rechunk_faithful
    [[openBrace, 'a', closeBrace], [openBrace, closeBrace]]
    [[openBrace], ['a'], [], [closeBrace, '\n', openBrace, closeBrace, '\n', openBrace]]
    [openBrace] (by decide) (by decide) (by decide)

/-! ## Correlation client (`MCPTestClient` of `tests/helpers/mcp_client.ts`) -/

/-- A decoded response envelope: `id` may be absent (or `null`) in the JSON,
and the payload (`result` or `error` body) is abstracted to a tag. -/
structure MCPResponse where
  id : Option Int
  body : Nat
deriving DecidableEq, Repr

/-- JavaScript truthiness of the `id` field: absent/`null` and `0` are falsy. -/
def idTruthy : Option Int → Bool
  | none => false
  | some n => n ≠ 0

/-- Classification of the synthetic failures the client manufactures. -/
inductive FailKind where
  | timeout
  | transportClosed
deriving DecidableEq, Repr

/-- The mutable fields of `MCPTestClient`: the `requestId` counter, the
`responseHandlers` map (association list id ↦ caller token), the set of
armed per-request timeout timers, the readiness flag, whether a spawned
process handle is held, and the log of request ids written to stdin. -/
structure ClientState where
  requestId : Int
  handlers : List (Int × Nat)
  timers : List Int
  serverReady : Bool
  hasServer : Bool
  written : List Int
deriving DecidableEq, Repr

/-- The freshly-constructed client. -/
def initialState : ClientState :=
  { requestId := 0, handlers := [], timers := [], serverReady := false,
    hasServer := false, written := [] }

/-- Lookup `responseHandlers.get(i)` on the association list. -/
def lookupH : List (Int × Nat) → Int → Option Nat
  | [], _ => none
  | p :: ps, i => if p.1 = i then some p.2 else lookupH ps i

/-- Deletion `responseHandlers.delete(i)` on the association list. -/
def removeH : List (Int × Nat) → Int → List (Int × Nat)
  | [], _ => []
  | p :: ps, i => if p.1 = i then removeH ps i else p :: removeH ps i

/-- Model of `sendRequest`: guard on readiness, allocate `++requestId`, register the
handler, arm the per-request timeout timer, write the framed request. On the
not-ready path nothing is mutated and nothing is written. -/
def sendRequest (st : ClientState) (token : Nat) : ClientState × Except String Int :=
  if st.serverReady = true ∧ st.hasServer = true then
    ({ st with requestId := st.requestId + 1,
               handlers := st.handlers ++ [(st.requestId + 1, token)],
               timers := st.timers ++ [st.requestId + 1],
               written := st.written ++ [st.requestId + 1] },
     Except.ok (st.requestId + 1))
  else (st, Except.error "Server not ready")

/-- The correlation step of `processOutputBuffer` on one decoded message:
`if (response.id && this.responseHandlers.has(response.id))` then delete the
entry and fire the handler (which clears the call's timer and resolves).
Returns the fired (token, response), if any. -/
def handleMessage (st : ClientState) (r : MCPResponse) :
    ClientState × Option (Nat × MCPResponse) :=
  match r.id with
  | none => (st, none)
  | some i =>
      if i = 0 then (st, none)
      else
        match lookupH st.handlers i with
        | none => (st, none)
        | some tok =>
            ({ st with handlers := removeH st.handlers i,
                       timers := st.timers.filter (fun j => decide (j ≠ i)) },
             some (tok, r))

/-- The per-request timeout timer firing: only an armed timer fires; it
deletes the handler entry and rejects the call with a timeout error. -/
def fireTimeout (st : ClientState) (i : Int) : ClientState × Option (Int × FailKind) :=
  if i ∈ st.timers then
    ({ st with timers := st.timers.filter (fun j => decide (j ≠ i)),
               handlers := removeH st.handlers i },
     some (i, FailKind.timeout))
  else (st, none)

/-- Model of `cleanup`: if a process handle is held, kill it, drop the handle, clear
the readiness flag and the `responseHandlers` map. No continuation is fired
and the armed timers are not cancelled. The second component is the list of
(id, failure) continuations fired during the call. -/
def cleanup (st : ClientState) : ClientState × List (Int × FailKind) :=
  if st.hasServer then
    ({ st with hasServer := false, serverReady := false, handlers := [] }, [])
  else (st, [])

/-- The events driving the client, in event-loop order. `.ready` models
`start()` having spawned the worker and observed the readiness line. -/
inductive ClientOp where
  | ready
  | send (token : Nat)
  | recv (r : MCPResponse)
  | timerFire (i : Int)
  | close
deriving Repr

/-- One event-loop step. -/
def applyOp (st : ClientState) : ClientOp → ClientState
  | ClientOp.ready => { st with serverReady := true, hasServer := true }
  | ClientOp.send tok => (sendRequest st tok).1
  | ClientOp.recv r => (handleMessage st r).1
  | ClientOp.timerFire i => (fireTimeout st i).1
  | ClientOp.close => (cleanup st).1

/-- Run a sequence of events from a state. -/
def runOps (st : ClientState) : List ClientOp → ClientState
  | [] => st
  | op :: ops => runOps (applyOp st op) ops

/-- The request identifiers allocated (by successful `sendRequest`s) along a
run, in order. -/
def runAlloc (st : ClientState) : List ClientOp → List Int
  | [] => []
  | op :: ops =>
      (match op with
       | ClientOp.send tok =>
           (match (sendRequest st tok).2 with
            | Except.ok i => [i]
            | Except.error _ => [])
       | _ => []) ++ runAlloc (applyOp st op) ops

/-- Issue a batch of calls (tokens identify the callers). -/
def issueList (st : ClientState) : List Nat → ClientState
  | [] => st
  | tok :: toks => issueList (sendRequest st tok).1 toks

/-- Deliver a batch of decoded responses, collecting the fired
(token, response) continuations in firing order. -/
def deliverList (st : ClientState) : List MCPResponse → ClientState × List (Nat × MCPResponse)
  | [] => (st, [])
  | r :: rs =>
      let p := handleMessage st r
      let q := deliverList p.1 rs
      (q.1, p.2.toList ++ q.2)

/-- The ready client from which calls are issued. -/
def readyState : ClientState := applyOp initialState ClientOp.ready

/-! ### Association-list (correlation table) lemmas -/

theorem lookupH_removeH_ne (hs : List (Int × Nat)) (i i' : Int) (h : i' ≠ i) :
    lookupH (removeH hs i) i' = lookupH hs i' := by
  induction hs with
  | nil => rfl
  | cons p ps ih =>
      have h2 : ¬ i = i' := fun hh => h hh.symm
      by_cases hp : p.1 = i
      · have hne : ¬ p.1 = i' := by rw [hp]; exact fun hh => h hh.symm
        simp [removeH, lookupH, hp, hne, ih, h2]
      · by_cases hp' : p.1 = i'
        · simp [removeH, lookupH, hp, hp', h]
        · simp [removeH, lookupH, hp, hp', ih, h]

theorem lookupH_removeH_self (hs : List (Int × Nat)) (i : Int) :
    lookupH (removeH hs i) i = none := by
  induction hs with
  | nil => rfl
  | cons p ps ih =>
      by_cases hp : p.1 = i
      · simp [removeH, hp, ih]
      · simp [removeH, lookupH, hp, ih]

/-! ### Table shape after issuing a batch of calls -/

/-- The correlation-table segment produced by consecutive allocations
starting above `base`. -/
def tableFrom (base : Int) : List Nat → List (Int × Nat)
  | [] => []
  | tok :: toks => (base + 1, tok) :: tableFrom (base + 1) toks

theorem issueList_shape (toks : List Nat) (st : ClientState)
    (hr : st.serverReady = true) (hsv : st.hasServer = true) :
    (issueList st toks).handlers = st.handlers ++ tableFrom st.requestId toks ∧
    (issueList st toks).requestId = st.requestId + toks.length ∧
    (issueList st toks).serverReady = true ∧
    (issueList st toks).hasServer = true := by
  induction toks generalizing st with
  | nil => simp [issueList, tableFrom, hr, hsv]
  | cons tok toks ih =>
      rw [issueList]
      have hsend : (sendRequest st tok).1 =
          { st with requestId := st.requestId + 1,
                    handlers := st.handlers ++ [(st.requestId + 1, tok)],
                    timers := st.timers ++ [st.requestId + 1],
                    written := st.written ++ [st.requestId + 1] } := by
        simp [sendRequest, hr, hsv]
      rw [hsend]
      obtain ⟨h1, h2, h3, h4⟩ := ih
        ({ st with requestId := st.requestId + 1,
                   handlers := st.handlers ++ [(st.requestId + 1, tok)],
                   timers := st.timers ++ [st.requestId + 1],
                   written := st.written ++ [st.requestId + 1] }) hr hsv
      refine ⟨?_, ?_, h3, h4⟩
      · rw [h1]
        simp [tableFrom, List.append_assoc]
      · rw [h2]
        simp
        omega

theorem lookupH_tableFrom (toks : List Nat) (base : Int) (k : Nat)
    (hk : k < toks.length) :
    lookupH (tableFrom base toks) (base + 1 + k) = toks.get? k := by
  induction toks generalizing base k with
  | nil => simp at hk
  | cons tok toks ih =>
      cases k with
      | zero => simp [tableFrom, lookupH]
      | succ k' =>
          have hkey : base + 1 + ((k' + 1 : Nat) : Int) =
              (base + 1) + 1 + (k' : Int) := by push_cast; ring
          rw [hkey]
          have hne' : ¬ (base + 1 = (base + 1) + 1 + (k' : Int)) := by omega
          simp only [tableFrom, lookupH, hne', if_false, List.get?]
          exact ih (base + 1) k' (by simpa using hk)

/-! ### Out-of-order delivery -/

theorem deliverList_spec (tokens : List Nat) (resps : List MCPResponse)
    (st : ClientState)
    (h : ∀ r ∈ resps, ∃ k, k < tokens.length ∧ r.id = some ((k : Int) + 1) ∧
        lookupH st.handlers ((k : Int) + 1) = tokens.get? k)
    (hnd : (resps.map (fun r => r.id)).Nodup) :
    (deliverList st resps).2.map Prod.snd = resps ∧
    ∀ p ∈ (deliverList st resps).2, ∃ k, k < tokens.length ∧
        p.2.id = some ((k : Int) + 1) ∧ tokens.get? k = some p.1 := by
  induction resps generalizing st with
  | nil => simp [deliverList]
  | cons r rs ih =>
      obtain ⟨k, hk, hid, hlook⟩ := h r (by simp)
      obtain ⟨tok, htok⟩ : ∃ t, tokens.get? k = some t := by
        rw [List.get?_eq_get hk]; exact ⟨_, rfl⟩
      have hi0 : ¬ ((k : Int) + 1 = 0) := by omega
      have hfire : handleMessage st r =
          ({ st with handlers := removeH st.handlers ((k : Int) + 1),
                     timers := st.timers.filter (fun j => decide (j ≠ (k : Int) + 1)) },
           some (tok, r)) := by
        rw [handleMessage]
        rw [hid]
        simp only [hi0, if_false]
        rw [hlook, htok]
      simp only [List.map_cons, List.nodup_cons] at hnd
      have hrs : ∀ r' ∈ rs, ∃ k', k' < tokens.length ∧
          r'.id = some ((k' : Int) + 1) ∧
          lookupH (removeH st.handlers ((k : Int) + 1)) ((k' : Int) + 1) =
            tokens.get? k' := by
        intro r' hr'
        obtain ⟨k', hk', hid', hlook'⟩ := h r' (by simp [hr'])
        refine ⟨k', hk', hid', ?_⟩
        have hne : ((k' : Int) + 1) ≠ ((k : Int) + 1) := by
          intro heq
          apply hnd.1
          have : r'.id = r.id := by rw [hid', hid, heq]
          exact (List.mem_map.mpr ⟨r', hr', this⟩)
        rw [lookupH_removeH_ne _ _ _ hne, hlook']
      obtain ⟨ihmap, ihall⟩ :=
        ih ({ st with handlers := removeH st.handlers ((k : Int) + 1),
                      timers := st.timers.filter (fun j => decide (j ≠ (k : Int) + 1)) })
          hrs hnd.2
      constructor
      · rw [deliverList]
        simp only [hfire]
        simpa using ihmap
      · intro p hp
        rw [deliverList] at hp
        simp only [hfire, Option.toList_some, List.cons_append, List.nil_append,
          List.mem_cons] at hp
        rcases hp with hp | hp
        · exact ⟨k, hk, by rw [hp, hid], by rw [hp, htok]⟩
        · exact ihall p hp

/-- C2: for every batch of concurrent calls issued via `sendRequest` and
every order in which the (distinct-id) responses are delivered — reversed,
shuffled, interleaved — each delivered response fires exactly the
continuation of the call that allocated its identifier: the fired
(token, response) pairs list the responses in delivery order, and each
fired token is the token of the call whose allocated id the response bears,
never another call's. -/
theorem correlation_out_of_order (tokens : List Nat) (resps : List MCPResponse)
    (hid : ∀ r ∈ resps, ∃ k, k < tokens.length ∧ r.id = some ((k : Int) + 1))
    (hnd : (resps.map (fun r => r.id)).Nodup) :
    (deliverList (issueList readyState tokens) resps).2.map Prod.snd = resps ∧
    ∀ p ∈ (deliverList (issueList readyState tokens) resps).2,
      ∃ k, k < tokens.length ∧ p.2.id = some ((k : Int) + 1) ∧
        tokens.get? k = some p.1 := by
  apply deliverList_spec
  · intro r hr
    obtain ⟨k, hk, hidr⟩ := hid r hr
    refine ⟨k, hk, hidr, ?_⟩
    obtain ⟨h1, _, _, _⟩ := issueList_shape tokens readyState rfl rfl
    rw [h1]
    have : (readyState.handlers : List (Int × Nat)) = [] := rfl
    rw [this, List.nil_append]
    have hbase : ((k : Int) + 1) = (readyState.requestId + 1 + (k : Int)) := by
      have : readyState.requestId = 0 := rfl
      rw [this]; ring
    rw [hbase]
    exact lookupH_tableFrom tokens readyState.requestId k hk
  · exact hnd

/-- Witness for C2: three calls (tokens 10, 20, 30) answered in scrambled
order 3, 1, 2; each fires with its own call's token. -/
theorem correlation_out_of_order_witness :
    (deliverList (issueList readyState [10, 20, 30])
        [⟨some 3, 33⟩, ⟨some 1, 11⟩, ⟨some 2, 22⟩]).2.map Prod.snd =
      [⟨some 3, 33⟩, ⟨some 1, 11⟩, ⟨some 2, 22⟩] ∧
    ∀ p ∈ (deliverList (issueList readyState [10, 20, 30])
        [⟨some 3, 33⟩, ⟨some 1, 11⟩, ⟨some 2, 22⟩]).2,
      ∃ k, k < ([10, 20, 30] : List Nat).length ∧ p.2.id = some ((k : Int) + 1) ∧
        ([10, 20, 30] : List Nat).get? k = some p.1 :=
  correlation_out_of_order [10, 20, 30] [⟨some 3, 33⟩, ⟨some 1, 11⟩, ⟨some 2, 22⟩]
    (by intro r hr
        fin_cases hr
        · exact ⟨2, by norm_num, rfl⟩
        · exact ⟨0, by norm_num, rfl⟩
        · exact ⟨1, by norm_num, rfl⟩)
    (by decide)

/-! ### Reachable-state invariants -/

theorem mem_removeH (hs : List (Int × Nat)) (i : Int) (p : Int × Nat) :
    p ∈ removeH hs i ↔ p ∈ hs ∧ p.1 ≠ i := by
  induction hs with
  | nil => simp [removeH]
  | cons q qs ih =>
      by_cases hq : q.1 = i
      · rw [removeH]
        simp only [hq, if_true, ih, List.mem_cons]
        constructor
        · rintro ⟨hp, hne⟩; exact ⟨Or.inr hp, hne⟩
        · rintro ⟨hp | hp, hne⟩
          · exact absurd (by rw [hp, hq]) hne
          · exact ⟨hp, hne⟩
      · rw [removeH]
        simp only [hq, if_false, List.mem_cons, ih]
        constructor
        · rintro (hp | ⟨hp, hne⟩)
          · exact ⟨Or.inl hp, by rw [hp]; exact hq⟩
          · exact ⟨Or.inr hp, hne⟩
        · rintro ⟨hp | hp, hne⟩
          · exact Or.inl hp
          · exact Or.inr ⟨hp, hne⟩

/-- Invariant of every reachable client state: each pending entry of the
correlation table still has its per-request timer armed, and a nonempty
table implies a live process handle. -/
def ClientInv (st : ClientState) : Prop :=
  (∀ p ∈ st.handlers, p.1 ∈ st.timers) ∧ (st.handlers ≠ [] → st.hasServer = true)

theorem applyOp_inv (st : ClientState) (op : ClientOp) (h : ClientInv st) :
    ClientInv (applyOp st op) := by
  obtain ⟨ht, hsrv⟩ := h
  cases op with
  | ready => exact ⟨ht, fun _ => rfl⟩
  | send tok =>
      rw [applyOp, sendRequest]
      by_cases hg : st.serverReady = true ∧ st.hasServer = true
      · rw [if_pos hg]
        dsimp only
        refine ⟨?_, fun _ => hg.2⟩
        intro p hp
        simp only [List.mem_append, List.mem_singleton] at hp
        rcases hp with hp | hp
        · exact List.mem_append.mpr (Or.inl (ht p hp))
        · exact List.mem_append.mpr (Or.inr (by simp [hp]))
      · rw [if_neg hg]
        exact ⟨ht, hsrv⟩
  | recv r =>
      rw [applyOp, handleMessage]
      cases hid : r.id with
      | none => exact ⟨ht, hsrv⟩
      | some i =>
          by_cases hi : i = 0
          · simp only [hi, if_true]
            exact ⟨ht, hsrv⟩
          · simp only [hi, if_false]
            cases hl : lookupH st.handlers i with
            | none => exact ⟨ht, hsrv⟩
            | some tok =>
                refine ⟨?_, ?_⟩
                · intro p hp
                  have hp' := (mem_removeH st.handlers i p).mp hp
                  exact List.mem_filter.mpr ⟨ht p hp'.1, by simpa using hp'.2⟩
                · intro hne
                  apply hsrv
                  intro hempty
                  exact hne (by rw [hempty]; rfl)
  | timerFire i =>
      rw [applyOp, fireTimeout]
      by_cases hm : i ∈ st.timers
      · simp only [hm, if_true]
        refine ⟨?_, ?_⟩
        · intro p hp
          have hp' := (mem_removeH st.handlers i p).mp hp
          exact List.mem_filter.mpr ⟨ht p hp'.1, by simpa using hp'.2⟩
        · intro hne
          apply hsrv
          intro hempty
          exact hne (by rw [hempty]; rfl)
      · simp only [hm, if_false]
        exact ⟨ht, hsrv⟩
  | close =>
      rw [applyOp, cleanup]
      by_cases hsv : st.hasServer
      · simp only [hsv, if_true]
        exact ⟨by intro p hp; simp at hp, by intro hc; simp at hc⟩
      · simp only [hsv, if_false]
        exact ⟨ht, hsrv⟩

theorem runOps_inv (ops : List ClientOp) (st : ClientState) (h : ClientInv st) :
    ClientInv (runOps st ops) := by
  induction ops generalizing st with
  | nil => exact h
  | cons op ops ih => exact ih _ (applyOp_inv st op h)

theorem initial_inv : ClientInv initialState :=
  ⟨by intro p hp; simp [initialState] at hp, by intro hc; simp [initialState] at hc⟩

/-! ### Closing while calls are pending (C4) and timeout eviction (C5) -/

/-- C4 counterexample: run the client to a state with one pending call
(id 1, caller token 7) and invoke `cleanup`. The claim says every pending
call is failed with a transport-closed error before `close()` returns; in
fact `cleanup` fires no continuation at all — the list of (id, failure)
continuations fired during the call is empty even though the table held a
pending entry. -/
theorem cleanup_noFail_counterexample :
    (runOps initialState [ClientOp.ready, ClientOp.send 7]).handlers = [(1, 7)] ∧
    (cleanup (runOps initialState [ClientOp.ready, ClientOp.send 7])).2 = [] := by
  decide

/-- C4 amended: `cleanup()` fires no continuation; it empties the
correlation table and drops the process handle, but leaves every
per-request timeout timer armed. A call pending at close time therefore
stays unresolved when `close()` returns and is settled only later, when its
own timer fires, with a timeout-classified error — not a transport-closed
one. -/
theorem cleanup_clears_table_timers_persist (ops : List ClientOp) (i : Int) (tok : Nat)
    (hpend : (i, tok) ∈ (runOps initialState ops).handlers) :
    (cleanup (runOps initialState ops)).2 = [] ∧
    (cleanup (runOps initialState ops)).1.handlers = [] ∧
    (cleanup (runOps initialState ops)).1.timers = (runOps initialState ops).timers ∧
    i ∈ (cleanup (runOps initialState ops)).1.timers ∧
    (fireTimeout (cleanup (runOps initialState ops)).1 i).2 =
      some (i, FailKind.timeout) := by
  obtain ⟨htimer, hsrv⟩ := runOps_inv ops initialState initial_inv
  have hsv : (runOps initialState ops).hasServer = true := by
    apply hsrv
    intro hc
    rw [hc] at hpend
    simp at hpend
  have hmem : i ∈ (runOps initialState ops).timers := htimer (i, tok) hpend
  have hc2 : (cleanup (runOps initialState ops)).2 = [] := by
    simp [cleanup, hsv]
  have hch : (cleanup (runOps initialState ops)).1.handlers = [] := by
    simp [cleanup, hsv]
  have hct : (cleanup (runOps initialState ops)).1.timers =
      (runOps initialState ops).timers := by
    simp [cleanup, hsv]
  refine ⟨hc2, hch, hct, by rw [hct]; exact hmem, ?_⟩
  rw [fireTimeout, hct, if_pos hmem]

/-- Witness for C4 amended: the concrete pending call (id 1, token 7). -/
theorem cleanup_clears_table_timers_persist_witness :
    (cleanup (runOps initialState [ClientOp.ready, ClientOp.send 7])).2 = [] ∧
    (cleanup (runOps initialState [ClientOp.ready, ClientOp.send 7])).1.handlers = [] ∧
    (cleanup (runOps initialState [ClientOp.ready, ClientOp.send 7])).1.timers =
      (runOps initialState [ClientOp.ready, ClientOp.send 7]).timers ∧
    (1 : Int) ∈ (cleanup (runOps initialState [ClientOp.ready, ClientOp.send 7])).1.timers ∧
    (fireTimeout (cleanup (runOps initialState [ClientOp.ready, ClientOp.send 7])).1 1).2 =
      some (1, FailKind.timeout) :=
  cleanup_clears_table_timers_persist [ClientOp.ready, ClientOp.send 7] 1 7 (by decide)

/-- C5: a call whose timeout fires before any response arrives fails with a
timeout-classified error and its table entry is removed; a response bearing
that identifier arriving afterwards is dropped with no state change and
fires nothing, so a second resolution of the continuation is impossible. -/
theorem timeout_then_late_response (st : ClientState) (i : Int) (r : MCPResponse)
    (harm : i ∈ st.timers) (hid : r.id = some i) :
    (fireTimeout st i).2 = some (i, FailKind.timeout) ∧
    lookupH (fireTimeout st i).1.handlers i = none ∧
    handleMessage (fireTimeout st i).1 r = ((fireTimeout st i).1, none) := by
  have h1 : (fireTimeout st i).2 = some (i, FailKind.timeout) := by
    simp [fireTimeout, harm]
  have hh : (fireTimeout st i).1.handlers = removeH st.handlers i := by
    simp [fireTimeout, harm]
  have hnone : lookupH (fireTimeout st i).1.handlers i = none := by
    rw [hh]; exact lookupH_removeH_self _ _
  refine ⟨h1, hnone, ?_⟩
  rw [handleMessage, hid]
  dsimp only
  by_cases hi : i = 0
  · rw [if_pos hi]
  · rw [if_neg hi, hnone]

/-- Witness for C5: a pending call (id 1) times out, then its response
arrives late and is dropped. -/
theorem timeout_then_late_response_witness :
    (1 : Int) ∈ (runOps initialState [ClientOp.ready, ClientOp.send 5]).timers ∧
    (fireTimeout (runOps initialState [ClientOp.ready, ClientOp.send 5]) 1).2 =
      some (1, FailKind.timeout) ∧
    lookupH (fireTimeout (runOps initialState [ClientOp.ready, ClientOp.send 5]) 1).1.handlers 1 =
      none ∧
    handleMessage (fireTimeout (runOps initialState [ClientOp.ready, ClientOp.send 5]) 1).1
        ⟨some 1, 42⟩ =
      ((fireTimeout (runOps initialState [ClientOp.ready, ClientOp.send 5]) 1).1, none) :=
  ⟨by decide,
   timeout_then_late_response (runOps initialState [ClientOp.ready, ClientOp.send 5]) 1
     ⟨some 1, 42⟩ (by decide) rfl⟩

/-! ### Startup readiness (C9) -/

/-- Whether `needle` is a prefix of the haystack (character-wise). -/
def leadsWith : List Char → List Char → Bool
  | [], _ => true
  | _ :: _, [] => false
  | a :: as, b :: bs => a = b && leadsWith as bs

/-- Model of `output.includes(needle)`: substring search. -/
def containsSub (needle : List Char) : List Char → Bool
  | [] => needle.isEmpty
  | c :: t => leadsWith needle (c :: t) || containsSub needle t

/-- The distinguished readiness line fragment the client watches for on the
worker's output. -/
def readyMarker : List Char := "Ready to receive MCP requests".toList

/-- After `start()` spawned the worker: a process handle is now held. -/
def spawnServer (st : ClientState) : ClientState :=
  { st with hasServer := true }

/-- One `data` event during startup: if the chunk contains the readiness
marker, set `serverReady`. -/
def onStartData (st : ClientState) (chunk : List Char) : ClientState :=
  if containsSub readyMarker chunk then { st with serverReady := true } else st

/-- All the `data` events of the startup window, after the spawn. -/
def processStartData (st : ClientState) (chunks : List (List Char)) : ClientState :=
  chunks.foldl onStartData (spawnServer st)

/-- The outcome of `start()` over the chunks arriving within the bounded
startup wait: resolve if some chunk contains the readiness marker,
otherwise the startup timer rejects. -/
def startOutcome (chunks : List (List Char)) : Except String Unit :=
  if chunks.any (fun ch => containsSub readyMarker ch) then Except.ok ()
  else Except.error "Server failed to start within timeout"

theorem processStartData_not_ready (st : ClientState) (chunks : List (List Char))
    (h0 : st.serverReady = false)
    (hno : ∀ ch ∈ chunks, containsSub readyMarker ch = false) :
    (processStartData st chunks).serverReady = false := by
  rw [processStartData]
  have hsp : (spawnServer st).serverReady = false := h0
  generalize spawnServer st = st0 at hsp
  induction chunks generalizing st0 with
  | nil => exact hsp
  | cons ch chs ih =>
      rw [List.foldl_cons]
      have hch : containsSub readyMarker ch = false := hno ch (by simp)
      have : onStartData st0 ch = st0 := by
        rw [onStartData, hch]
        simp
      rw [this]
      exact ih (fun c hc => hno c (by simp [hc])) st0 hsp

/-- C9: the client never writes a request before observing the readiness
line. If no chunk of the startup window contains the marker, `start()`
rejects with the startup-timeout error, the readiness flag stays down, and
`sendRequest` on the resulting state fails with "Server not ready" while
mutating nothing — in particular writing nothing to the worker's stdin. -/
theorem readiness_guard (st : ClientState) (tok : Nat) (chunks : List (List Char))
    (h0 : st.serverReady = false)
    (hno : ∀ ch ∈ chunks, containsSub readyMarker ch = false) :
    startOutcome chunks = Except.error "Server failed to start within timeout" ∧
    (processStartData st chunks).serverReady = false ∧
    sendRequest (processStartData st chunks) tok =
      (processStartData st chunks, Except.error "Server not ready") := by
  have hready := processStartData_not_ready st chunks h0 hno
  refine ⟨?_, hready, ?_⟩
  · rw [startOutcome, if_neg ?_]
    intro hany
    rw [List.any_eq_true] at hany
    obtain ⟨ch, hch, hc⟩ := hany
    rw [hno ch hch] at hc
    exact Bool.false_ne_true hc
  · rw [sendRequest, if_neg ?_]
    intro hg
    rw [hready] at hg
    exact Bool.false_ne_true hg.1

/-- Witness for C9: a startup window containing only a diagnostic chunk
without the marker. -/
theorem readiness_guard_witness :
    startOutcome [['h', 'i']] = Except.error "Server failed to start within timeout" ∧
    (processStartData initialState [['h', 'i']]).serverReady = false ∧
    sendRequest (processStartData initialState [['h', 'i']]) 3 =
      (processStartData initialState [['h', 'i']], Except.error "Server not ready") :=
  readiness_guard initialState 3 [['h', 'i']] rfl (by decide)

/-! ### Identifier discipline (C10) -/

theorem handleMessage_requestId (st : ClientState) (r : MCPResponse) :
    (handleMessage st r).1.requestId = st.requestId := by
  rw [handleMessage]
  cases hid : r.id with
  | none => rfl
  | some i =>
      dsimp only
      by_cases hi : i = 0
      · rw [if_pos hi]
      · rw [if_neg hi]
        cases hl : lookupH st.handlers i with
        | none => rfl
        | some tok => rfl

theorem applyOp_requestId_mono (st : ClientState) (op : ClientOp) :
    st.requestId ≤ (applyOp st op).requestId := by
  cases op with
  | ready => exact le_refl _
  | send tok =>
      rw [applyOp, sendRequest]
      by_cases hg : st.serverReady = true ∧ st.hasServer = true
      · rw [if_pos hg]; dsimp only; omega
      · rw [if_neg hg]
  | recv r => rw [applyOp, handleMessage_requestId]
  | timerFire i =>
      rw [applyOp, fireTimeout]
      by_cases hm : i ∈ st.timers
      · rw [if_pos hm]
      · rw [if_neg hm]
  | close =>
      rw [applyOp, cleanup]
      by_cases hsv : st.hasServer = true
      · rw [if_pos hsv]
      · rw [if_neg hsv]

theorem runAlloc_lb (ops : List ClientOp) (st : ClientState) :
    ∀ i ∈ runAlloc st ops, st.requestId < i := by
  induction ops generalizing st with
  | nil => intro i hi; simp [runAlloc] at hi
  | cons op ops ih =>
      intro i hi
      cases op with
      | send tok =>
          rw [runAlloc] at hi
          by_cases hg : st.serverReady = true ∧ st.hasServer = true
          · have hval : (sendRequest st tok).2 = Except.ok (st.requestId + 1) := by
              rw [sendRequest, if_pos hg]
            rw [hval] at hi
            simp only [List.singleton_append, List.mem_cons] at hi
            rcases hi with hi | hi
            · omega
            · have := ih (applyOp st (ClientOp.send tok)) i hi
              have hmono := applyOp_requestId_mono st (ClientOp.send tok)
              omega
          · have hval : (sendRequest st tok).2 = Except.error "Server not ready" := by
              rw [sendRequest, if_neg hg]
            rw [hval] at hi
            simp only [List.nil_append] at hi
            have := ih (applyOp st (ClientOp.send tok)) i hi
            have hmono := applyOp_requestId_mono st (ClientOp.send tok)
            omega
      | ready =>
          simp only [runAlloc, List.nil_append] at hi
          exact lt_of_le_of_lt (applyOp_requestId_mono st ClientOp.ready)
            (ih (applyOp st ClientOp.ready) i hi)
      | recv r =>
          simp only [runAlloc, List.nil_append] at hi
          exact lt_of_le_of_lt (applyOp_requestId_mono st (ClientOp.recv r))
            (ih (applyOp st (ClientOp.recv r)) i hi)
      | timerFire j =>
          simp only [runAlloc, List.nil_append] at hi
          exact lt_of_le_of_lt (applyOp_requestId_mono st (ClientOp.timerFire j))
            (ih (applyOp st (ClientOp.timerFire j)) i hi)
      | close =>
          simp only [runAlloc, List.nil_append] at hi
          exact lt_of_le_of_lt (applyOp_requestId_mono st ClientOp.close)
            (ih (applyOp st ClientOp.close) i hi)

theorem runAlloc_chain (ops : List ClientOp) (st : ClientState) :
    List.Chain' (· < ·) (runAlloc st ops) := by
  induction ops generalizing st with
  | nil => simp [runAlloc]
  | cons op ops ih =>
      cases op with
      | send tok =>
          rw [runAlloc]
          by_cases hg : st.serverReady = true ∧ st.hasServer = true
          · have hval : (sendRequest st tok).2 = Except.ok (st.requestId + 1) := by
              rw [sendRequest, if_pos hg]
            rw [hval]
            rw [List.singleton_append, List.chain'_cons']
            refine ⟨?_, ih _⟩
            intro b hb
            have hmem : b ∈ runAlloc (applyOp st (ClientOp.send tok)) ops :=
              List.mem_of_mem_head? hb
            have hlb := runAlloc_lb ops (applyOp st (ClientOp.send tok)) b hmem
            have hrid : (applyOp st (ClientOp.send tok)).requestId = st.requestId + 1 := by
              rw [applyOp, sendRequest, if_pos hg]
            omega
          · have hval : (sendRequest st tok).2 = Except.error "Server not ready" := by
              rw [sendRequest, if_neg hg]
            rw [hval]
            rw [List.nil_append]
            exact ih _
      | ready => simp only [runAlloc, List.nil_append]; exact ih _
      | recv r => simp only [runAlloc, List.nil_append]; exact ih _
      | timerFire j => simp only [runAlloc, List.nil_append]; exact ih _
      | close => simp only [runAlloc, List.nil_append]; exact ih _

/-- C10: a pending-call continuation fires only for a truthy, registered
identifier — a decoded message whose `id` is absent/`null` or `0` is always
dropped with no state change — and this filter can never suppress a
self-issued call, because over any lifetime of the client (any event
sequence from the initial state) `sendRequest` allocates identifiers as a
strictly increasing sequence of values ≥ 1, never 0 and never reused. -/
theorem id_filter_never_drops_own_calls (st : ClientState) (b : Nat)
    (ops : List ClientOp) :
    handleMessage st ⟨none, b⟩ = (st, none) ∧
    handleMessage st ⟨some 0, b⟩ = (st, none) ∧
    List.Chain' (· < ·) (runAlloc initialState ops) ∧
    (∀ i ∈ runAlloc initialState ops, 1 ≤ i) := by
  refine ⟨rfl, ?_, runAlloc_chain ops initialState, ?_⟩
  · rw [handleMessage]
    dsimp only
    rw [if_pos rfl]
  · intro i hi
    have := runAlloc_lb ops initialState i hi
    have h0 : initialState.requestId = 0 := rfl
    omega

/-! ## Tool dispatcher (`src/server.ts`, with the zod variant of the v2
server) -/

/-- The fields of a `tools/call` argument object that the handlers read.
`ns` renders the source's `namespace` field (a Lean keyword); `none` is an
absent (or `null`) field. -/
structure ToolInput where
  name : Option String
  ns : Option String
  labelSelector : Option String
deriving DecidableEq, Repr

/-- The fallback `args ||` empty object. -/
def emptyInput : ToolInput := ⟨none, none, none⟩

/-- JavaScript falsiness of a string-valued field: absent, `null` or `""`. -/
def falsyStr : Option String → Bool
  | none => true
  | some s => s.isEmpty

/-- The fallback `input.namespace || config.kubernetes.namespace` (line 60 / line 84 of
`src/server.ts`): the handler itself falls back to the configured
namespace when the field is falsy. -/
def resolveNamespace (cfgNs : String) (i : ToolInput) : String :=
  match i.ns with
  | none => cfgNs
  | some s => if s.isEmpty then cfgNs else s

/-- A kubernetes-client error: optional HTTP status and message. -/
structure K8sErr where
  statusCode : Option Nat
  message : String
deriving DecidableEq, Repr

/-- The opaque kubernetes collaborator (out of scope per the spec): each
operation yields a serialized domain result or a failure. -/
structure K8sApi where
  listNamespacedPod : String → Except String String
  readNamespacedPod : String → String → Except K8sErr String
  listNode : Unit → Except String String

/-- Model of `listPodsHandler`: resolve the namespace, query the cluster, wrap a
failure as `Failed to list pods: ...` (the pod-summary mapping is inside
the opaque serialized result). -/
def listPodsHandler (cfgNs : String) (api : K8sApi) (input : ToolInput) :
    Except String String :=
  match api.listNamespacedPod (resolveNamespace cfgNs input) with
  | Except.ok pods => Except.ok pods
  | Except.error m => Except.error ("Failed to list pods: " ++ m)

/-- Model of `getPodHandler`: the required-name check lives inside the handler
(`if (!name) throw new Error("Pod name is required")`); 404s and other
failures are rethrown with specific messages. -/
def getPodHandler (cfgNs : String) (api : K8sApi) (input : ToolInput) :
    Except String String :=
  if falsyStr input.name then Except.error "Pod name is required"
  else
    match api.readNamespacedPod (input.name.getD "") (resolveNamespace cfgNs input) with
    | Except.ok pod => Except.ok pod
    | Except.error e =>
        if e.statusCode = some 404 then
          Except.error ("Pod '" ++ input.name.getD "" ++ "' not found in namespace '" ++
            resolveNamespace cfgNs input ++ "'")
        else Except.error ("Failed to get pod: " ++ e.message)

/-- Model of `listNodesHandler`. -/
def listNodesHandler (api : K8sApi) : Except String String :=
  match api.listNode () with
  | Except.ok nodes => Except.ok nodes
  | Except.error m => Except.error ("Failed to list nodes: " ++ m)

/-- The `switch (name)` inside the `tools/call` handler's `try`: route to
the tool's handler, or throw `Unknown tool: ...` on the default branch.
The second component logs which handler was invoked and with which raw
input. -/
def dispatchBody (cfgNs : String) (api : K8sApi) (name : String) (input : ToolInput) :
    Except String String × List (String × ToolInput) :=
  if name = "list-pods" then (listPodsHandler cfgNs api input, [("list-pods", input)])
  else if name = "get-pod" then (getPodHandler cfgNs api input, [("get-pod", input)])
  else if name = "list-nodes" then (listNodesHandler api, [("list-nodes", input)])
  else (Except.error ("Unknown tool: " ++ name), [])

/-- What a `tools/call` dispatch can produce: a success envelope
(`{ content: [{type:"text", text}], isError? }`) or a protocol-level
JSON-RPC error (what an exception escaping the request handler would
become in the MCP SDK). -/
inductive ToolsCallResult where
  | envelope (text : String) (isError : Bool)
  | protocolError (message : String)
deriving DecidableEq, Repr

/-- The full `tools/call` request handler: `args || {}`, run the switch in
a `try`, and turn any thrown error into a success envelope with
`isError: true` and text `Error: <message>`. The catch-all means the
handler function itself never rejects, so no dispatch outcome is a
protocol-level error. -/
def toolsCall (cfgNs : String) (api : K8sApi) (name : String)
    (args : Option ToolInput) : ToolsCallResult × List (String × ToolInput) :=
  match (dispatchBody cfgNs api name (args.getD emptyInput)).1 with
  | Except.ok text =>
      (ToolsCallResult.envelope text false,
       (dispatchBody cfgNs api name (args.getD emptyInput)).2)
  | Except.error m =>
      (ToolsCallResult.envelope ("Error: " ++ m) true,
       (dispatchBody cfgNs api name (args.getD emptyInput)).2)

/-- Whether a dispatch outcome is a protocol-level Response-Error. -/
def isProtocolError : ToolsCallResult → Bool
  | ToolsCallResult.protocolError _ => true
  | _ => false

/-- A cluster stub whose operations all succeed. -/
def stubApi : K8sApi :=
  { listNamespacedPod := fun _ => Except.ok "pods",
    readNamespacedPod := fun _ _ => Except.ok "pod",
    listNode := fun _ => Except.ok "nodes" }

/-- A cluster stub whose operations all fail. -/
def failingApi : K8sApi :=
  { listNamespacedPod := fun _ => Except.error "boom",
    readNamespacedPod := fun _ _ => Except.error ⟨none, "boom"⟩,
    listNode := fun _ => Except.error "boom" }

/-- Zod default substitution for the v2 server's `list-pods` input shape
(`z.string().default(config.kubernetes.namespace)`): an absent field is
replaced by the declared default before the handler runs. Modelled from
the zod schema declared in the v2 server source; the substitution itself
is performed by the zod library, an external collaborator. -/
def zodListPodsParse (cfgNs : String) (raw : ToolInput) : ToolInput :=
  { raw with ns := some (raw.ns.getD cfgNs) }

/-- The invocation log of a dispatch is the switch's log, whatever the
handler outcome. -/
theorem toolsCall_log (cfgNs : String) (api : K8sApi) (name : String)
    (args : Option ToolInput) :
    (toolsCall cfgNs api name args).2 =
      (dispatchBody cfgNs api name (args.getD emptyInput)).2 := by
  rw [toolsCall]
  cases hd : (dispatchBody cfgNs api name (args.getD emptyInput)).1 with
  | ok text => rfl
  | error m => rfl

/-- C3 counterexample: dispatching the unregistered name `invalid-tool`
(the very input of the repository's own integration test) does not produce
a protocol-level Response-Error: the `catch` converts the thrown
`Unknown tool` into a success envelope carrying error-like text with
`isError: true`. -/
theorem unknownTool_counterexample :
    (toolsCall "default" stubApi "invalid-tool" none).1 =
      ToolsCallResult.envelope "Error: Unknown tool: invalid-tool" true ∧
    isProtocolError (toolsCall "default" stubApi "invalid-tool" none).1 = false := by
  decide

/-- C3 amended: for every dispatch of a tool name that is not registered,
the dispatcher returns a success envelope with `isError: true` whose text
is `Error: Unknown tool: <name>` — not a protocol-level Response-Error —
and invokes no handler. -/
theorem unknownTool_isError_envelope (cfgNs : String) (api : K8sApi) (name : String)
    (args : Option ToolInput)
    (h : name ∉ ["list-pods", "get-pod", "list-nodes"]) :
    (toolsCall cfgNs api name args).1 =
      ToolsCallResult.envelope ("Error: Unknown tool: " ++ name) true ∧
    isProtocolError (toolsCall cfgNs api name args).1 = false ∧
    (toolsCall cfgNs api name args).2 = [] := by
  simp only [List.mem_cons, List.not_mem_nil, or_false, not_or] at h
  obtain ⟨h1, h2, h3⟩ := h
  have hb : dispatchBody cfgNs api name (args.getD emptyInput) =
      (Except.error ("Unknown tool: " ++ name), []) := by
    rw [dispatchBody, if_neg h1, if_neg h2, if_neg h3]
  rw [toolsCall, hb]
  exact ⟨rfl, rfl, rfl⟩

/-- Witness for C3 amended: the concrete unregistered name `missing-tool`. -/
theorem unknownTool_isError_envelope_witness :
    (toolsCall "default" stubApi "missing-tool" none).1 =
      ToolsCallResult.envelope ("Error: Unknown tool: " ++ "missing-tool") true ∧
    isProtocolError (toolsCall "default" stubApi "missing-tool" none).1 = false ∧
    (toolsCall "default" stubApi "missing-tool" none).2 = [] :=
  unknownTool_isError_envelope "default" stubApi "missing-tool" none (by decide)

/-- C6: for every registered tool whose handler signals a domain failure,
the dispatcher still returns a success envelope whose payload carries the
failure flag (`content` with text `Error: <message>` plus `isError: true`);
the failure never becomes a protocol-level Response-Error, and the dispatch
function is total (it never crashes). -/
theorem handler_failure_stays_in_envelope (cfgNs : String) (api : K8sApi)
    (name : String) (args : Option ToolInput) (e : String)
    (hreg : name ∈ (["list-pods", "get-pod", "list-nodes"] : List String))
    (hfail : (dispatchBody cfgNs api name (args.getD emptyInput)).1 =
      Except.error e) :
    (toolsCall cfgNs api name args).1 =
      ToolsCallResult.envelope ("Error: " ++ e) true ∧
    isProtocolError (toolsCall cfgNs api name args).1 = false := by
  rw [toolsCall, hfail]
  exact ⟨rfl, rfl⟩

/-- Witness for C6: `list-pods` over a cluster stub whose query fails with
`boom`; the dispatch yields the flagged envelope
`Error: Failed to list pods: boom`. -/
theorem handler_failure_stays_in_envelope_witness :
    (toolsCall "default" failingApi "list-pods" none).1 =
      ToolsCallResult.envelope ("Error: " ++ "Failed to list pods: boom") true ∧
    isProtocolError (toolsCall "default" failingApi "list-pods" none).1 = false :=
  handler_failure_stays_in_envelope "default" failingApi "list-pods" none
    "Failed to list pods: boom" (by decide) (by rfl)

/-- C7 counterexample: dispatching the registered tool `get-pod` with input
missing the required `name` field does invoke the handler (the invocation
log records `get-pod`), and the outcome is a success envelope with
`isError: true` — not an invalid-input protocol-level Response-Error. The
required-field check lives inside the handler itself. -/
theorem getPod_missing_name_counterexample :
    (toolsCall "default" stubApi "get-pod" (some emptyInput)).1 =
      ToolsCallResult.envelope "Error: Pod name is required" true ∧
    isProtocolError (toolsCall "default" stubApi "get-pod" (some emptyInput)).1 =
      false ∧
    (toolsCall "default" stubApi "get-pod" (some emptyInput)).2 =
      [("get-pod", emptyInput)] := by
  decide

/-- C7 amended: for every dispatch of `get-pod` whose raw input has a falsy
`name` (absent, `null` or empty), the handler is invoked and throws
`Pod name is required`, which the dispatcher returns as a success envelope
with `isError: true` — no protocol-level invalid-input error is produced
and no schema validation runs before the handler. -/
theorem getPod_missing_name_invokes_handler (cfgNs : String) (api : K8sApi)
    (args : Option ToolInput)
    (h : falsyStr (args.getD emptyInput).name = true) :
    (toolsCall cfgNs api "get-pod" args).1 =
      ToolsCallResult.envelope ("Error: " ++ "Pod name is required") true ∧
    (toolsCall cfgNs api "get-pod" args).2 =
      [("get-pod", args.getD emptyInput)] := by
  have hb : dispatchBody cfgNs api "get-pod" (args.getD emptyInput) =
      (Except.error "Pod name is required", [("get-pod", args.getD emptyInput)]) := by
    rw [dispatchBody, if_neg (by decide), if_pos rfl, getPodHandler, if_pos h]
  rw [toolsCall, hb]
  exact ⟨rfl, rfl⟩

/-- Witness for C7 amended: `get-pod` called with `{}`. -/
theorem getPod_missing_name_invokes_handler_witness :
    (toolsCall "default" stubApi "get-pod" (some ⟨some "", none, none⟩)).1 =
      ToolsCallResult.envelope ("Error: " ++ "Pod name is required") true ∧
    (toolsCall "default" stubApi "get-pod" (some ⟨some "", none, none⟩)).2 =
      [("get-pod", (⟨some "", none, none⟩ : ToolInput))] :=
  getPod_missing_name_invokes_handler "default" stubApi
    (some ⟨some "", none, none⟩) (by decide)

/-- C8 counterexample: dispatching `list-pods` with the `namespace` field
omitted hands the handler the raw input in which the field is still
absent — the handler does observe the field as absent, so no default was
substituted during validation before the handler ran. -/
theorem listPods_observes_absent_ns_counterexample :
    (toolsCall "default" stubApi "list-pods" (some emptyInput)).2 =
      [("list-pods", emptyInput)] ∧
    emptyInput.ns = none := by
  decide

/-- C8 amended: in `src/server.ts` no substitution happens before the
handler — `list-pods` dispatched without `namespace` passes the raw input
(field absent) to the handler, which falls back to the configured default
itself via `input.namespace || config.kubernetes.namespace`, so the
cluster query still uses the default namespace; in the v2 server the zod
schema's declared default is substituted before the handler runs, which
then never observes the field as absent. -/
theorem namespace_default_resolution (cfgNs : String) (api : K8sApi)
    (args : Option ToolInput)
    (h : (args.getD emptyInput).ns = none) :
    (toolsCall cfgNs api "list-pods" args).2 =
      [("list-pods", args.getD emptyInput)] ∧
    resolveNamespace cfgNs (args.getD emptyInput) = cfgNs ∧
    (zodListPodsParse cfgNs (args.getD emptyInput)).ns = some cfgNs := by
  refine ⟨?_, ?_, ?_⟩
  · rw [toolsCall_log]
    rw [dispatchBody, if_pos rfl]
  · rw [resolveNamespace, h]
  · rw [zodListPodsParse]
    simp [h]

/-- Witness for C8 amended: `list-pods` with `{}` under the default
configuration. -/
theorem namespace_default_resolution_witness :
    (toolsCall "default" stubApi "list-pods" (some emptyInput)).2 =
      [("list-pods", emptyInput)] ∧
    resolveNamespace "default" emptyInput = "default" ∧
    (zodListPodsParse "default" emptyInput).ns = some "default" :=
  namespace_default_resolution "default" stubApi (some emptyInput) rfl
